import Mathlib

/-!
Verification development for the live view-model synchronization core of a
terminal torrent dashboard (transmission_curses).

The embedding translates the relevant Python source:

* torrent_list.py, class TorrentListWalker: the view-model state
  (entries / order / sorts / focus) and its operations set_entries,
  set_sort, _do_sort.
* console.py, ConsoleToplevel: the async-to-sync bridge
  (call_async_function / handle_callbacks), the polling loop body
  (update_data), and the staleness tracker
  (track_update_time / RatesWidget.update_time).

Modelling conventions:

* Python field values occurring in the claims are integers and strings;
  they are embedded as the inductive type Value.  Python raises TypeError
  on mixed int/string comparison; well-formed torrent data never compares
  mixed types within one field, and the embedding totalizes the order by
  placing integers before strings (this branch is never exercised on
  well-formed data).
* A Python dict is embedded as an association list in insertion order.
  Assigning to an existing key replaces the value in place (keeping the
  key's original position), assigning a fresh key appends; this is exactly
  CPython (3.7+) dict semantics.
* Python's list.sort(key=k, reverse=rev) is a stable sort.  Any two stable
  sorts driven by the same total-preorder comparison are extensionally
  equal, so it is embedded as List.insertionSort (structural, hence
  computable by the kernel) with the comparison on extracted keys;
  reverse=True reverses comparisons while still keeping equal elements in
  their original order, which corresponds to the stable sort with the
  flipped comparison.
* Records are embedded as total functions from field names to values
  (well-formed remote data always carries the accessed fields; no claim
  concerns a missing field).
* Wall-clock instants and durations are embedded as rationals.
-/

namespace TC

/-- A Python value stored in a torrent record field: an integer or a string. -/
inductive Value where
  | int (n : Int)
  | str (s : String)
deriving DecidableEq

/-- Lexicographic comparison of character sequences by Unicode code point,
the order Python uses to compare strings. -/
def charsLe : List Char → List Char → Bool
  | [], _ => true
  | _ :: _, [] => false
  | a :: s, b :: t =>
      if a.toNat < b.toNat then true
      else if b.toNat < a.toNat then false
      else charsLe s t

/-- Python string comparison s <= t (lexicographic by code point). -/
def strLe (s t : String) : Bool := charsLe s.data t.data

/-- Comparison used by Python's sort on extracted key values: integers by
numeric order, strings lexicographically.  Mixed comparisons do not occur on
well-formed data; the embedding totalizes by putting integers first. -/
def vle : Value → Value → Bool
  | .int m, .int n => decide (m ≤ n)
  | .int _, .str _ => true
  | .str _, .int _ => false
  | .str s, .str t => strLe s t

/-- A torrent record: a flat mapping from field names to values
(the raw dict the remote service returns for one torrent). -/
def Rec : Type := String → Value

/-- A Python dict keyed by identifier values, in insertion order. -/
def Entries : Type := List (Value × Rec)

/-- Assignment d[k] = v on a Python dict: replace in place if the key is
present (keeping its position), else append at the end. -/
def dictInsert : Entries → Value → Rec → Entries
  | [], k, v => [(k, v)]
  | p :: rest, k, v =>
      if p.1 = k then (k, v) :: rest else p :: dictInsert rest k v

/-- Lookup d[k] on a Python dict (none models KeyError). -/
def dictLookup : Entries → Value → Option Rec
  | [], _ => none
  | p :: rest, k => if p.1 = k then some p.2 else dictLookup rest k

/-- Key list of a dict, in insertion order (list(d.keys())). -/
def keys (d : Entries) : List Value := d.map Prod.fst

/-- Embedding of the dict comprehension in set_entries
(torrent_list.py:163-164): build the entries dict keyed by each raw
record's id field, in list order. -/
def buildEntries (tl : List Rec) : Entries :=
  tl.foldl (fun d i => dictInsert d (i "id") i) []

/-- Placeholder record used to totalize lookups; never reached when the
looked-up identifier is a key of the dict. -/
def defaultRec : Rec := fun _ => .int 0

/-- The sort key extraction lambda in _do_sort (torrent_list.py:189):
entries[x][0][key]. -/
def fieldOf (d : Entries) (key : String) (x : Value) : Value :=
  ((dictLookup d x).getD defaultRec) key

/-- Ascending comparison on the named field of the records of two
identifiers, as used by _do_sort. -/
def keyLe (d : Entries) (key : String) (x y : Value) : Prop :=
  vle (fieldOf d key x) (fieldOf d key y) = true

instance (d : Entries) (key : String) : DecidableRel (keyLe d key) :=
  fun _ _ => instDecidableEqBool _ _

/-- One self.order.sort(key=..., reverse=rev) call of _do_sort
(torrent_list.py:189-190).  Python's sort is stable; reverse=True reverses
comparisons but equal elements keep their original order, which is the
stable sort under the flipped comparison. -/
def sortStep (d : Entries) (key : String) (rev : Bool) (ord : List Value) :
    List Value :=
  if rev then ord.insertionSort (fun x y => keyLe d key y x)
  else ord.insertionSort (keyLe d key)

/-- TorrentListWalker._do_sort (torrent_list.py:187-190): apply each
(key, reverse) pair of the sort history, oldest first, as a stable sort. -/
def doSort (sorts : List (String × Bool)) (d : Entries) (ord : List Value) :
    List Value :=
  sorts.foldl (fun o kr => sortStep d kr.1 kr.2 o) ord

/-- The view-model state of TorrentListWalker (torrent_list.py:132-149).
The widget component of each entries value is presentation-only and is not
modelled. -/
structure TorrentListWalker where
  entries : Entries
  order : List Value
  sorts : List (String × Bool)
  focus : Option Value

/-- TorrentListWalker.__init__ (torrent_list.py:137-149). -/
def TorrentListWalker.init : TorrentListWalker :=
  { entries := [], order := [], sorts := [("name", false)], focus := none }

/-- Property sort_key (torrent_list.py:154-156): self.sorts[-1][0].  The
sorts list is never empty; the default is never reached. -/
def TorrentListWalker.sort_key (w : TorrentListWalker) : String :=
  (w.sorts.getLast?.getD ("name", false)).1

/-- Property sort_reversed (torrent_list.py:158-160): self.sorts[-1][1]. -/
def TorrentListWalker.sort_reversed (w : TorrentListWalker) : Bool :=
  (w.sorts.getLast?.getD ("name", false)).2

/-- Python membership test self.focus in self.order where focus is
Optional: None is never an element of a list of identifiers. -/
def focusIn : Option Value → List Value → Bool
  | none, _ => false
  | some f, l => decide (f ∈ l)

/-- TorrentListWalker.set_entries (torrent_list.py:162-173): rebuild the
entries dict from the raw list, rebuild order from its keys, sort, then fix
up focus (None if empty; kept if still present; else the first element). -/
def TorrentListWalker.set_entries (w : TorrentListWalker) (tl : List Rec) :
    TorrentListWalker :=
  let entries := buildEntries tl
  let order := doSort w.sorts entries (keys entries)
  { entries := entries
    order := order
    sorts := w.sorts
    focus :=
      if order.isEmpty then none
      else if focusIn w.focus order then w.focus
      else order.head? }

/-- The eviction loop in set_sort (torrent_list.py:180-181):
while len(self.sorts) > 2: self.sorts.pop(0). -/
def trimSorts (l : List (String × Bool)) : List (String × Bool) :=
  l.drop (l.length - 2)

/-- TorrentListWalker.set_sort (torrent_list.py:175-185): push a
(key, reverse) pair, defaulting omitted components to the current topmost
entry's values, evict from the front down to two entries, and re-sort. -/
def TorrentListWalker.set_sort (w : TorrentListWalker) (key : Option String)
    (rev : Option Bool) : TorrentListWalker :=
  let se := (key.getD w.sort_key, rev.getD w.sort_reversed)
  let sorts := trimSorts (w.sorts ++ [se])
  { w with sorts := sorts, order := doSort sorts w.entries w.order }

/-- The invariant relating order to the entries dict: no duplicates, and
the same identifiers as the dict's key set. -/
def walkerInv (w : TorrentListWalker) : Prop :=
  w.order.Nodup ∧ w.order.Perm (keys w.entries)

/-!
The async-to-sync bridge (console.py:394-403).

call_async_function performs send_nowait on an unbounded trio memory
channel, so submission appends to the FIFO queue and never suspends the
caller; this is embedded as a total pure function on the queue.

handle_callbacks is the single drain task: an async-for over the channel
whose body awaits the producer and then invokes the continuation, with no
exception handling, so an exception escaping either ends the loop.  It is
embedded as a function from the queued items (in submission order) to the
list of scheduling events in execution order, paired with the escaped
exception, if any.  Each item carries an abstract producer latency, which
the serial drain provably never consults.
-/

/-- One queued unit of work for the bridge: the producer's abstract latency,
the outcome of awaiting the producer, and the continuation (whose outcome
may be an exception). -/
structure WorkItem where
  delay : Nat
  produce : Except String Value
  callback : Value → Except String Unit

/-- Events of the drain task, in execution order: the i-th submitted item's
producer is started, its producer completes, its continuation is invoked. -/
inductive BEvent where
  | producerStart (i : Nat)
  | producerDone (i : Nat)
  | callbackRun (i : Nat)
deriving DecidableEq

/-- ConsoleToplevel.call_async_function (console.py:394-395):
send_nowait((func, callback)) on an unbounded channel appends to the FIFO
queue and returns immediately. -/
def call_async_function (queue : List WorkItem) (it : WorkItem) :
    List WorkItem :=
  queue ++ [it]

/-- ConsoleToplevel.handle_callbacks (console.py:397-403) run to completion
on the items queued in submission order, numbering items from n.  The body
awaits one producer to completion, then runs its continuation, before
receiving the next item; there is no exception handler, so a raising
producer or continuation terminates the drain loop with that exception. -/
def handleCallbacks (n : Nat) : List WorkItem → List BEvent × Option String
  | [] => ([], none)
  | it :: rest =>
    match it.produce with
    | .error e => ([.producerStart n], some e)
    | .ok v =>
      match it.callback v with
      | .error e =>
          ([.producerStart n, .producerDone n, .callbackRun n], some e)
      | .ok _ =>
          let r := handleCallbacks (n + 1) rest
          (.producerStart n :: .producerDone n :: .callbackRun n :: r.1, r.2)

/-- A work item whose producer succeeds and whose continuation returns
normally on the produced value. -/
def itemOk (it : WorkItem) : Prop :=
  ∃ v, it.produce = .ok v ∧ it.callback v = .ok ()

/-- The event trace of a fully successful serial drain of m items numbered
from n: each item's producer starts only after the previous item's
continuation has returned. -/
def serialTrace (n : Nat) : Nat → List BEvent
  | 0 => []
  | m + 1 =>
      .producerStart n :: .producerDone n :: .callbackRun n ::
        serialTrace (n + 1) m

/-- Extract the submission index from a continuation-invocation event. -/
def contIdx : BEvent → Option Nat
  | .callbackRun i => some i
  | _ => none

/-!
The polling loop (console.py:413-438) and the staleness tracker
(console.py:59-66 and 440-444).
-/

/-- The fixed poll period: trio.sleep_until(it + 3.0) at console.py:438. -/
def pollPeriod : ℚ := 3

/-- The staleness tick period: trio.sleep(0.5) at console.py:444. -/
def tickPeriod : ℚ := 1 / 2

/-- The staleness threshold: the 5-second bound at console.py:63. -/
def staleThreshold : ℚ := 5

/-- The view state touched by a poll round: the list walker and the
last-successful-update instant self.last_update. -/
structure PollState where
  walker : TorrentListWalker
  last_update : ℚ

/-- One iteration of the while-loop body of ConsoleToplevel.update_data
(console.py:424-438).  The iteration starts at instant it; the three
sequential remote calls are given by their outcomes r, ses, stats and
finish at instant ft.  If any call raises, the except clause swallows the
exception and continues, so nothing is merged and the next iteration
begins at ft with no sleep; on success the torrent list is reconciled into
the walker, last_update is set, and trio.sleep_until(it + 3.0) delays the
next iteration to max(ft, it + pollPeriod).  The returned rational is the
instant the next iteration begins.  The session and stats payloads feed
only header/footer text and are not part of the modelled state. -/
def update_data_round (st : PollState) (it ft : ℚ)
    (r : Except String (List Rec)) (ses stats : Except String Unit) :
    PollState × ℚ :=
  match r, ses, stats with
  | .ok tl, .ok _, .ok _ =>
      ({ walker := st.walker.set_entries tl, last_update := ft },
       max ft (it + pollPeriod))
  | _, _, _ => (st, ft)

/-- RatesWidget.update_time (console.py:59-66): the display degrades to the
"N seconds ago" indicator exactly when the tracked elapsed time reaches
the threshold (self.time_since_update >= 5). -/
def update_time_is_stale (time : ℚ) : Bool := decide (staleThreshold ≤ time)

/-- The elapsed value passed by ConsoleToplevel.track_update_time
(console.py:440-444) on each tick: trio.current_time() - self.last_update. -/
def track_elapsed (ct last_update : ℚ) : ℚ := ct - last_update

/-!
Concrete records used by the frozen example claims and by witnesses.
-/

/-- Example record with id 1, name "b", size 5 (spec section 8). -/
def exRec1 : Rec := fun s =>
  if s = "id" then .int 1
  else if s = "name" then .str "b"
  else if s = "size" then .int 5
  else .int 0

/-- Example record with id 2, name "a", size 5 (spec section 8). -/
def exRec2 : Rec := fun s =>
  if s = "id" then .int 2
  else if s = "name" then .str "a"
  else if s = "size" then .int 5
  else .int 0

/-- Example record with id 3, name "a", size 3 (spec section 8). -/
def exRec3 : Rec := fun s =>
  if s = "id" then .int 3
  else if s = "name" then .str "a"
  else if s = "size" then .int 3
  else .int 0

/-- Duplicate-identifier example: first record with id 1, name "x". -/
def dupRecX : Rec := fun s =>
  if s = "id" then .int 1
  else if s = "name" then .str "x"
  else .int 0

/-- Duplicate-identifier example: second record with id 1, name "y". -/
def dupRecY : Rec := fun s =>
  if s = "id" then .int 1
  else if s = "name" then .str "y"
  else .int 0

/-- A bridge work item that produces the given value successfully. -/
def okItem (v : Value) : WorkItem :=
  { delay := 30, produce := .ok v, callback := fun _ => .ok () }

/-- A bridge work item whose producer raises. -/
def failingItem : WorkItem :=
  { delay := 10, produce := .error "boom", callback := fun _ => .ok () }

/-!
Order properties of the value comparison.
-/

theorem charsLe_cons_lt {a b : Char} (s t : List Char) (h : a.toNat < b.toNat) :
    charsLe (a :: s) (b :: t) = true := by
  simp [charsLe, h]

theorem charsLe_cons_gt {a b : Char} (s t : List Char) (h : b.toNat < a.toNat) :
    charsLe (a :: s) (b :: t) = false := by
  have h' : ¬ a.toNat < b.toNat := by omega
  simp [charsLe, h, h']

theorem charsLe_cons_eq {a b : Char} (s t : List Char) (h : a.toNat = b.toNat) :
    charsLe (a :: s) (b :: t) = charsLe s t := by
  have h₁ : ¬ a.toNat < b.toNat := by omega
  have h₂ : ¬ b.toNat < a.toNat := by omega
  simp [charsLe, h₁, h₂]

theorem charsLe_refl (s : List Char) : charsLe s s = true := by
  induction s with
  | nil => rfl
  | cons a s ih => rw [charsLe_cons_eq s s rfl]; exact ih

theorem charsLe_total (s t : List Char) :
    charsLe s t = true ∨ charsLe t s = true := by
  induction s generalizing t with
  | nil => left; rfl
  | cons a s ih =>
    cases t with
    | nil => right; rfl
    | cons b t =>
      rcases Nat.lt_trichotomy a.toNat b.toNat with h | h | h
      · left; exact charsLe_cons_lt s t h
      · rw [charsLe_cons_eq s t h, charsLe_cons_eq t s h.symm]; exact ih t
      · right; exact charsLe_cons_lt t s h

theorem charsLe_trans {s t u : List Char} (h₁ : charsLe s t = true)
    (h₂ : charsLe t u = true) : charsLe s u = true := by
  induction s generalizing t u with
  | nil => rfl
  | cons a s ih =>
    cases t with
    | nil => simp [charsLe] at h₁
    | cons b t =>
      cases u with
      | nil => simp [charsLe] at h₂
      | cons c u =>
        rcases Nat.lt_trichotomy a.toNat b.toNat with hab | hab | hab
        · rcases Nat.lt_trichotomy b.toNat c.toNat with hbc | hbc | hbc
          · exact charsLe_cons_lt s u (by omega)
          · exact charsLe_cons_lt s u (by omega)
          · rw [charsLe_cons_gt t u hbc] at h₂; exact absurd h₂ (by simp)
        · rcases Nat.lt_trichotomy b.toNat c.toNat with hbc | hbc | hbc
          · exact charsLe_cons_lt s u (by omega)
          · rw [charsLe_cons_eq s t hab] at h₁
            rw [charsLe_cons_eq t u hbc] at h₂
            rw [charsLe_cons_eq s u (hab.trans hbc)]
            exact ih h₁ h₂
          · rw [charsLe_cons_gt t u hbc] at h₂; exact absurd h₂ (by simp)
        · rw [charsLe_cons_gt s t hab] at h₁; exact absurd h₁ (by simp)

theorem vle_refl (a : Value) : vle a a = true := by
  cases a with
  | int n => simp [vle]
  | str s => exact charsLe_refl s.data

theorem vle_total (a b : Value) : vle a b = true ∨ vle b a = true := by
  cases a <;> cases b <;> simp [vle, strLe]
  · exact Int.le_total _ _
  · exact charsLe_total _ _

theorem vle_trans {a b c : Value} (h₁ : vle a b = true) (h₂ : vle b c = true) :
    vle a c = true := by
  cases a <;> cases b <;> cases c <;> simp_all [vle, strLe]
  · exact le_trans h₁ h₂
  · exact charsLe_trans h₁ h₂

/-!
Properties of the dict embedding.
-/

theorem dictInsert_cons (p : Value × Rec) (rest : Entries) (k : Value)
    (v : Rec) :
    dictInsert (p :: rest) k v =
      if p.1 = k then (k, v) :: rest else p :: dictInsert rest k v := rfl

theorem dictLookup_cons (p : Value × Rec) (rest : Entries) (k : Value) :
    dictLookup (p :: rest) k =
      if p.1 = k then some p.2 else dictLookup rest k := rfl

theorem keys_cons (p : Value × Rec) (rest : Entries) :
    keys (p :: rest) = p.1 :: keys rest := rfl

theorem mem_keys_dictInsert (d : Entries) (k : Value) (v : Rec) (x : Value) :
    x ∈ keys (dictInsert d k v) ↔ x ∈ keys d ∨ x = k := by
  induction d with
  | nil => simp [dictInsert, keys]
  | cons p rest ih =>
    rw [dictInsert_cons]
    by_cases hp : p.1 = k
    · rw [if_pos hp, keys_cons, keys_cons, ← hp]
      simp only [List.mem_cons]
      tauto
    · rw [if_neg hp, keys_cons, keys_cons]
      simp only [List.mem_cons, ih]
      tauto

theorem nodup_keys_dictInsert (d : Entries) (k : Value) (v : Rec)
    (h : (keys d).Nodup) : (keys (dictInsert d k v)).Nodup := by
  induction d with
  | nil => simp [dictInsert, keys]
  | cons p rest ih =>
    rw [keys_cons, List.nodup_cons] at h
    rw [dictInsert_cons]
    by_cases hp : p.1 = k
    · rw [if_pos hp, keys_cons, List.nodup_cons, ← hp]
      exact h
    · rw [if_neg hp, keys_cons, List.nodup_cons]
      constructor
      · rw [mem_keys_dictInsert]
        rintro (hm | hm)
        · exact h.1 hm
        · exact hp hm
      · exact ih h.2

theorem nodup_keys_foldl (tl : List Rec) :
    ∀ d : Entries, (keys d).Nodup →
      (keys (tl.foldl (fun d i => dictInsert d (i "id") i) d)).Nodup := by
  induction tl with
  | nil => intro d h; exact h
  | cons i rest ih =>
    intro d h
    exact ih _ (nodup_keys_dictInsert _ _ _ h)

theorem nodup_keys_buildEntries (tl : List Rec) :
    (keys (buildEntries tl)).Nodup :=
  nodup_keys_foldl tl [] (by simp [keys])

theorem mem_keys_foldl (tl : List Rec) :
    ∀ (d : Entries) (x : Value),
      x ∈ keys (tl.foldl (fun d i => dictInsert d (i "id") i) d) ↔
        x ∈ keys d ∨ x ∈ tl.map (fun r => r "id") := by
  induction tl with
  | nil => intro d x; simp
  | cons i rest ih =>
    intro d x
    rw [List.foldl_cons, ih, mem_keys_dictInsert, List.map_cons,
      List.mem_cons]
    tauto

theorem mem_keys_buildEntries (tl : List Rec) (x : Value) :
    x ∈ keys (buildEntries tl) ↔ x ∈ tl.map (fun r => r "id") := by
  rw [buildEntries, mem_keys_foldl]
  simp [keys]

theorem dictLookup_dictInsert (d : Entries) (k : Value) (v : Rec)
    (x : Value) :
    dictLookup (dictInsert d k v) x =
      if x = k then some v else dictLookup d x := by
  induction d with
  | nil =>
    rw [show dictInsert ([] : Entries) k v = [(k, v)] from rfl,
      dictLookup_cons]
    by_cases h : x = k
    · rw [if_pos h.symm, if_pos h]
    · rw [if_neg (Ne.symm h), if_neg h]
  | cons p rest ih =>
    rw [dictInsert_cons]
    by_cases hp : p.1 = k
    · rw [if_pos hp, dictLookup_cons, dictLookup_cons]
      by_cases h : x = k
      · rw [if_pos (show ((k, v) : Value × Rec).1 = x from h.symm), if_pos h]
      · rw [if_neg (show ¬ ((k, v) : Value × Rec).1 = x from Ne.symm h),
          if_neg h,
          if_neg (show ¬ p.1 = x from hp ▸ Ne.symm h)]
    · rw [if_neg hp, dictLookup_cons, dictLookup_cons]
      by_cases h : p.1 = x
      · have hxk : ¬ x = k := fun hh => hp (h.trans hh)
        rw [if_pos h, if_neg hxk, if_pos h]
      · rw [if_neg h, ih, if_neg h]

theorem dictLookup_foldl (tl : List Rec) :
    ∀ (d : Entries) (k : Value),
      dictLookup (tl.foldl (fun d i => dictInsert d (i "id") i) d) k =
        (tl.reverse.find? (fun r => decide (r "id" = k))).or
          (dictLookup d k) := by
  induction tl with
  | nil => intro d k; simp
  | cons i rest ih =>
    intro d k
    rw [List.foldl_cons, ih, List.reverse_cons, List.find?_append,
      Option.or_assoc]
    congr 1
    rw [dictLookup_dictInsert]
    by_cases h : i "id" = k
    · rw [if_pos h.symm,
        List.find?_cons_of_pos _ (by simpa using h), Option.or_some]
    · rw [if_neg (Ne.symm h),
        List.find?_cons_of_neg _ (by simpa using h)]
      simp

/-!
Properties of the sort embedding.
-/

theorem sortStep_perm (d : Entries) (k : String) (rev : Bool)
    (ord : List Value) : (sortStep d k rev ord).Perm ord := by
  unfold sortStep
  split
  · exact List.perm_insertionSort _ _
  · exact List.perm_insertionSort _ _

theorem sortStep_nil (d : Entries) (k : String) (rev : Bool) :
    sortStep d k rev [] = [] := by
  unfold sortStep
  split <;> rfl

theorem doSort_perm (sorts : List (String × Bool)) (d : Entries) :
    ∀ ord : List Value, (doSort sorts d ord).Perm ord := by
  induction sorts with
  | nil => intro ord; exact List.Perm.refl _
  | cons kr rest ih =>
    intro ord
    exact (ih (sortStep d kr.1 kr.2 ord)).trans (sortStep_perm d kr.1 kr.2 ord)

theorem doSort_nil (sorts : List (String × Bool)) (d : Entries) :
    doSort sorts d [] = [] := by
  induction sorts with
  | nil => rfl
  | cons kr rest ih =>
    show doSort rest d (sortStep d kr.1 kr.2 []) = []
    rw [sortStep_nil]
    exact ih

/-!
Properties of the bridge drain loop.
-/

theorem handleCallbacks_cons_ok {it : WorkItem} {v : Value} (n : Nat)
    (rest : List WorkItem) (hp : it.produce = .ok v)
    (hc : it.callback v = .ok ()) :
    handleCallbacks n (it :: rest) =
      (.producerStart n :: .producerDone n :: .callbackRun n ::
        (handleCallbacks (n + 1) rest).1,
       (handleCallbacks (n + 1) rest).2) := by
  simp [handleCallbacks, hp, hc]

theorem handleCallbacks_cons_produce_error {it : WorkItem} {e : String}
    (n : Nat) (rest : List WorkItem) (hp : it.produce = .error e) :
    handleCallbacks n (it :: rest) = ([.producerStart n], some e) := by
  simp [handleCallbacks, hp]

theorem handleCallbacks_cons_callback_error {it : WorkItem} {v : Value}
    {e : String} (n : Nat) (rest : List WorkItem) (hp : it.produce = .ok v)
    (hc : it.callback v = .error e) :
    handleCallbacks n (it :: rest) =
      ([.producerStart n, .producerDone n, .callbackRun n], some e) := by
  simp [handleCallbacks, hp, hc]

theorem handleCallbacks_all_ok (q : List WorkItem) :
    ∀ n : Nat, (∀ it ∈ q, itemOk it) →
      handleCallbacks n q = (serialTrace n q.length, none) := by
  induction q with
  | nil => intro n _; rfl
  | cons it rest ih =>
    intro n h
    obtain ⟨v, hp, hc⟩ := h it (List.mem_cons_self it rest)
    rw [handleCallbacks_cons_ok n rest hp hc,
      ih (n + 1) (fun i hi => h i (List.mem_cons_of_mem _ hi))]
    rfl

theorem filterMap_contIdx_serialTrace :
    ∀ (m n : Nat), (serialTrace n m).filterMap contIdx = List.range' n m := by
  intro m
  induction m with
  | zero => intro n; rfl
  | succ m ih =>
    intro n
    show ((.producerStart n : BEvent) :: .producerDone n :: .callbackRun n ::
      serialTrace (n + 1) m).filterMap contIdx = List.range' n (m + 1)
    rw [List.filterMap_cons, List.filterMap_cons, List.filterMap_cons]
    show (n :: (serialTrace (n + 1) m).filterMap contIdx : List Nat) = _
    rw [ih (n + 1)]
    rfl

theorem handleCallbacks_drops_until_produce_error (e : String)
    (it : WorkItem) (hp : it.produce = .error e) :
    ∀ (pre : List WorkItem) (n : Nat) (post : List WorkItem),
      (∀ i ∈ pre, itemOk i) →
      handleCallbacks n (pre ++ it :: post) =
        (serialTrace n pre.length ++ [.producerStart (n + pre.length)],
         some e) := by
  intro pre
  induction pre with
  | nil =>
    intro n post _
    rw [List.nil_append, handleCallbacks_cons_produce_error n post hp]
    rfl
  | cons j rest ih =>
    intro n post h
    obtain ⟨v, hjp, hjc⟩ := h j (List.mem_cons_self j rest)
    rw [List.cons_append, handleCallbacks_cons_ok n _ hjp hjc,
      ih (n + 1) post (fun i hi => h i (List.mem_cons_of_mem _ hi))]
    show (_ :: _ :: _ :: (serialTrace (n + 1) rest.length ++
        [BEvent.producerStart (n + 1 + rest.length)]), some e) = _
    have harith : n + 1 + rest.length = n + (j :: rest).length := by
      simp [List.length_cons]; omega
    rw [harith]
    rfl

theorem handleCallbacks_drops_until_callback_error (e : String) (v : Value)
    (it : WorkItem) (hp : it.produce = .ok v) (hc : it.callback v = .error e) :
    ∀ (pre : List WorkItem) (n : Nat) (post : List WorkItem),
      (∀ i ∈ pre, itemOk i) →
      handleCallbacks n (pre ++ it :: post) =
        (serialTrace n pre.length ++
          [.producerStart (n + pre.length), .producerDone (n + pre.length),
           .callbackRun (n + pre.length)],
         some e) := by
  intro pre
  induction pre with
  | nil =>
    intro n post _
    rw [List.nil_append, handleCallbacks_cons_callback_error n post hp hc]
    rfl
  | cons j rest ih =>
    intro n post h
    obtain ⟨w, hjp, hjc⟩ := h j (List.mem_cons_self j rest)
    rw [List.cons_append, handleCallbacks_cons_ok n _ hjp hjc,
      ih (n + 1) post (fun i hi => h i (List.mem_cons_of_mem _ hi))]
    have harith : n + 1 + rest.length = n + (j :: rest).length := by
      simp [List.length_cons]; omega
    show (_ :: _ :: _ :: (serialTrace (n + 1) rest.length ++
        [BEvent.producerStart (n + 1 + rest.length),
         BEvent.producerDone (n + 1 + rest.length),
         BEvent.callbackRun (n + 1 + rest.length)]), some e) = _
    rw [harith]
    rfl

theorem itemOk_okItem (v : Value) : itemOk (okItem v) := ⟨v, rfl, rfl⟩

theorem handleCallbacks_delay_free (f : WorkItem → Nat) :
    ∀ (q : List WorkItem) (n : Nat),
      handleCallbacks n (q.map fun it => { it with delay := f it }) =
        handleCallbacks n q := by
  intro q
  induction q with
  | nil => intro n; rfl
  | cons it rest ih =>
    intro n
    rw [List.map_cons]
    cases hp : it.produce with
    | error e =>
      rw [handleCallbacks_cons_produce_error n _ hp]
      exact handleCallbacks_cons_produce_error n _ rfl
    | ok v =>
      cases hc : it.callback v with
      | error e =>
        rw [handleCallbacks_cons_callback_error n _ hp hc]
        exact handleCallbacks_cons_callback_error n _ rfl hc
      | ok u =>
        cases u
        rw [handleCallbacks_cons_ok n _ hp hc, ← ih (n + 1)]
        exact handleCallbacks_cons_ok n _ rfl hc

/-!
The claims.
-/

/-- C1: for every raw torrent list, after set_entries (the reconcile step)
completes the order sequence contains no duplicates and is a permutation of
the key set of the entries mapping; and any subsequent set_sort call
preserves this invariant. -/
theorem c1_set_entries_order_perm_keys :
    (∀ (w : TorrentListWalker) (tl : List Rec),
      walkerInv (w.set_entries tl)) ∧
    (∀ (w : TorrentListWalker) (k : Option String) (r : Option Bool),
      walkerInv w → walkerInv (w.set_sort k r)) := by
  constructor
  · intro w tl
    refine ⟨?_, ?_⟩
    · show (doSort w.sorts (buildEntries tl) (keys (buildEntries tl))).Nodup
      exact (doSort_perm _ _ _).nodup_iff.mpr (nodup_keys_buildEntries tl)
    · show (doSort w.sorts (buildEntries tl)
        (keys (buildEntries tl))).Perm (keys (buildEntries tl))
      exact doSort_perm _ _ _
  · intro w k r hw
    refine ⟨?_, ?_⟩
    · show (doSort (trimSorts (w.sorts ++
        [(k.getD w.sort_key, r.getD w.sort_reversed)]))
          w.entries w.order).Nodup
      exact (doSort_perm _ _ _).nodup_iff.mpr hw.1
    · show (doSort (trimSorts (w.sorts ++
        [(k.getD w.sort_key, r.getD w.sort_reversed)]))
          w.entries w.order).Perm (keys w.entries)
      exact (doSort_perm _ _ _).trans hw.2

/-- Witness for C1: the invariant holds concretely after a reconcile
followed by a set_sort call. -/
theorem c1_witness :
    walkerInv ((TorrentListWalker.init.set_entries [exRec1]).set_sort
      none none) :=
  c1_set_entries_order_perm_keys.2 _ none none
    (c1_set_entries_order_perm_keys.1 TorrentListWalker.init [exRec1])

/-- C2: after set_entries, if the previously focused identifier occurs in
the new list's id set the focus is unchanged; if it does not and the new
list is non-empty the focus is the first element of the new post-sort
order; if the new list is empty the focus is none. -/
theorem c2_focus_preservation :
    ∀ (w : TorrentListWalker) (tl : List Rec),
      (∀ f : Value, w.focus = some f → f ∈ tl.map (fun r => r "id") →
        (w.set_entries tl).focus = some f) ∧
      (tl ≠ [] →
        (∀ f : Value, w.focus = some f → f ∉ tl.map (fun r => r "id")) →
        (w.set_entries tl).focus = (w.set_entries tl).order.head?) ∧
      (tl = [] → (w.set_entries tl).focus = none) := by
  intro w tl
  refine ⟨?_, ?_, ?_⟩
  · intro f hf hmem
    have hkey : f ∈ keys (buildEntries tl) :=
      (mem_keys_buildEntries tl f).mpr hmem
    have hord : f ∈ doSort w.sorts (buildEntries tl)
        (keys (buildEntries tl)) :=
      (doSort_perm _ _ _).mem_iff.mpr hkey
    have h1 : (doSort w.sorts (buildEntries tl)
        (keys (buildEntries tl))).isEmpty = false :=
      List.isEmpty_eq_false.mpr (List.ne_nil_of_mem hord)
    have h2 : focusIn w.focus (doSort w.sorts (buildEntries tl)
        (keys (buildEntries tl))) = true := by
      rw [hf]
      exact decide_eq_true hord
    simp only [TorrentListWalker.set_entries, h1, h2, if_true,
      Bool.false_eq_true, if_false]
    exact hf
  · intro hne habs
    obtain ⟨i, tl', htl⟩ := List.exists_cons_of_ne_nil hne
    have hmemid : i "id" ∈ tl.map (fun r => r "id") := by
      rw [htl, List.map_cons]
      exact List.mem_cons_self _ _
    have hkey : i "id" ∈ keys (buildEntries tl) :=
      (mem_keys_buildEntries tl _).mpr hmemid
    have hord : i "id" ∈ doSort w.sorts (buildEntries tl)
        (keys (buildEntries tl)) :=
      (doSort_perm _ _ _).mem_iff.mpr hkey
    have h1 : (doSort w.sorts (buildEntries tl)
        (keys (buildEntries tl))).isEmpty = false :=
      List.isEmpty_eq_false.mpr (List.ne_nil_of_mem hord)
    have h2 : focusIn w.focus (doSort w.sorts (buildEntries tl)
        (keys (buildEntries tl))) = false := by
      cases hw : w.focus with
      | none => rfl
      | some f =>
        have hnot : f ∉ doSort w.sorts (buildEntries tl)
            (keys (buildEntries tl)) := fun hmem =>
          habs f hw ((mem_keys_buildEntries tl f).mp
            ((doSort_perm _ _ _).mem_iff.mp hmem))
        exact decide_eq_false hnot
    simp only [TorrentListWalker.set_entries, h1, h2,
      Bool.false_eq_true, if_false]
  · intro h
    subst h
    simp only [TorrentListWalker.set_entries, buildEntries, List.foldl_nil]
    rw [show keys [] = [] from rfl, doSort_nil]
    rfl

/-- Witness for C2: each branch exercised on a concrete walker whose focus
is identifier 1. -/
theorem c2_witness :
    ((TorrentListWalker.init.set_entries [exRec1]).set_entries
        [exRec1, exRec2]).focus = some (Value.int 1) ∧
    ((TorrentListWalker.init.set_entries [exRec1]).set_entries
        [exRec2]).focus =
      ((TorrentListWalker.init.set_entries [exRec1]).set_entries
        [exRec2]).order.head? ∧
    ((TorrentListWalker.init.set_entries [exRec1]).set_entries []).focus =
      none := by
  refine ⟨?_, ?_, ?_⟩
  · exact (c2_focus_preservation _ [exRec1, exRec2]).1 (Value.int 1)
      (by decide) (by decide)
  · exact (c2_focus_preservation _ [exRec2]).2.1 (List.cons_ne_nil _ _)
      (by
        intro f hf
        have hfocus : (TorrentListWalker.init.set_entries [exRec1]).focus =
            some (Value.int 1) := by decide
        rw [hfocus] at hf
        injection hf with hf'
        subst hf'
        decide)
  · exact (c2_focus_preservation _ []).2.2 rfl

/-- C3: the sort history is applied oldest-first as stable sorts, so the
most recently set criterion dominates and the older one breaks ties.
First conjunct: for the records (id 1, name b, size 5), (id 2, name a,
size 5), (id 3, name a, size 3), two set_sort calls for size ascending
then name ascending yield the final order 3, 2, 1.  Second conjunct: after
any history ending in an ascending key k, the order is sorted by k (the
newest criterion dominates).  Third conjunct: the final ascending sort
preserves the relative order of any two identifiers whose k-fields are
equal (ties are left to the order established by the older criteria). -/
theorem c3_sort_stability :
    (((TorrentListWalker.init.set_entries
        [exRec1, exRec2, exRec3]).set_sort (some "size")
          (some false)).set_sort (some "name") (some false)).order =
      [Value.int 3, Value.int 2, Value.int 1] ∧
    (∀ (d : Entries) (ord : List Value) (hist : List (String × Bool))
        (k : String),
      List.Sorted (keyLe d k) (doSort (hist ++ [(k, false)]) d ord)) ∧
    (∀ (d : Entries) (k : String) (ord : List Value) (x y : Value),
      fieldOf d k x = fieldOf d k y → List.Sublist [x, y] ord →
      List.Sublist [x, y] (sortStep d k false ord)) := by
  refine ⟨by decide, ?_, ?_⟩
  · intro d ord hist k
    rw [doSort, List.foldl_append]
    show List.Sorted (keyLe d k)
      (List.insertionSort (keyLe d k) (doSort hist d ord))
    haveI : IsTotal Value (keyLe d k) := ⟨fun a b => vle_total _ _⟩
    haveI : IsTrans Value (keyLe d k) := ⟨fun _ _ _ h₁ h₂ => vle_trans h₁ h₂⟩
    exact List.sorted_insertionSort _ _
  · intro d k ord x y hxy hsub
    show List.Sublist [x, y] (List.insertionSort (keyLe d k) ord)
    refine List.pair_sublist_insertionSort ?_ hsub
    show vle (fieldOf d k x) (fieldOf d k y) = true
    rw [hxy]
    exact vle_refl _

/-- Witness for C3: the tie-preservation conjunct applied to the concrete
entries, where identifiers 2 and 3 share the name field value. -/
theorem c3_witness :
    List.Sublist [Value.int 2, Value.int 3]
      (sortStep (buildEntries [exRec1, exRec2, exRec3]) "name" false
        [Value.int 2, Value.int 3]) :=
  c3_sort_stability.2.2 _ "name" _ (Value.int 2) (Value.int 3) (by decide)
    (List.Sublist.refl _)

/-- C10: a freshly constructed list walker has exactly the sort history
entry (name, not reversed); the first reconcile therefore orders by the
name field ascending; and a set_sort call omitting key and reverse
inherits name and false. -/
theorem c10_initial_sort_defaults :
    TorrentListWalker.init.sorts = [("name", false)] ∧
    TorrentListWalker.init.sort_key = "name" ∧
    TorrentListWalker.init.sort_reversed = false ∧
    (TorrentListWalker.init.set_sort none none).sorts =
      [("name", false), ("name", false)] ∧
    ∀ tl : List Rec,
      List.Sorted (keyLe (buildEntries tl) "name")
        ((TorrentListWalker.init.set_entries tl).order) := by
  refine ⟨rfl, rfl, rfl, rfl, ?_⟩
  intro tl
  show List.Sorted (keyLe (buildEntries tl) "name")
    (List.insertionSort (keyLe (buildEntries tl) "name")
      (keys (buildEntries tl)))
  haveI : IsTotal Value (keyLe (buildEntries tl) "name") :=
    ⟨fun a b => vle_total _ _⟩
  haveI : IsTrans Value (keyLe (buildEntries tl) "name") :=
    ⟨fun _ _ _ h₁ h₂ => vle_trans h₁ h₂⟩
  exact List.sorted_insertionSort _ _

/-- C4: the drain task runs queued items strictly serially, so for any
queue of work items whose producers and continuations succeed the full
event trace equals the serial trace, in which item i+1's producer starts
only after item i's continuation has returned (first conjunct); in
particular the continuations are invoked exactly in submission order
(second conjunct); and the trace is independent of the producers'
latencies (third conjunct).  Submission itself is send_nowait on an
unbounded channel, embedded as the total function call_async_function. -/
theorem c4_bridge_fifo :
    (∀ (q : List WorkItem) (n : Nat), (∀ it ∈ q, itemOk it) →
      handleCallbacks n q = (serialTrace n q.length, none)) ∧
    (∀ q : List WorkItem, (∀ it ∈ q, itemOk it) →
      (handleCallbacks 0 q).1.filterMap contIdx = List.range q.length) ∧
    (∀ (f : WorkItem → Nat) (q : List WorkItem) (n : Nat),
      handleCallbacks n (q.map fun it => { it with delay := f it }) =
        handleCallbacks n q) := by
  refine ⟨fun q n h => handleCallbacks_all_ok q n h, ?_, ?_⟩
  · intro q h
    rw [handleCallbacks_all_ok q 0 h]
    show (serialTrace 0 q.length).filterMap contIdx = List.range q.length
    rw [filterMap_contIdx_serialTrace, List.range_eq_range']
  · exact fun f q n => handleCallbacks_delay_free f q n

/-- Witness for C4: three successfully completing items with staggered
latencies drain in submission order with the serial trace. -/
theorem c4_witness :
    handleCallbacks 0
        [{ okItem (Value.int 1) with delay := 30 },
         { okItem (Value.int 2) with delay := 10 },
         { okItem (Value.int 3) with delay := 20 }] =
      (serialTrace 0 3, none) :=
  c4_bridge_fifo.1 _ 0 (by
    intro it hit
    rw [List.mem_cons, List.mem_cons, List.mem_singleton] at hit
    rcases hit with rfl | rfl | rfl
    · exact ⟨Value.int 1, rfl, rfl⟩
    · exact ⟨Value.int 2, rfl, rfl⟩
    · exact ⟨Value.int 3, rfl, rfl⟩)

/-- C5: a poll round in which any of the three sequential remote calls
raises leaves the walker state and last_update exactly unchanged; nothing
from the failed round is merged (the except clause swallows the error and
the loop totality carries it to the next attempt). -/
theorem c5_failure_isolation :
    ∀ (st : PollState) (it ft : ℚ) (r : Except String (List Rec))
      (ses stats : Except String Unit),
      ((∃ e, r = .error e) ∨ (∃ e, ses = .error e) ∨
        (∃ e, stats = .error e)) →
      (update_data_round st it ft r ses stats).1 = st := by
  intro st it ft r ses stats h
  cases r with
  | error e => rfl
  | ok tl =>
    cases ses with
    | error e => rfl
    | ok u =>
      cases stats with
      | error e => rfl
      | ok u' =>
        rcases h with ⟨e, he⟩ | ⟨e, he⟩ | ⟨e, he⟩ <;> cases he

/-- Witness for C5: a concrete failed round (transport error on the first
call) leaves a concrete state untouched. -/
theorem c5_witness :
    (update_data_round ⟨TorrentListWalker.init, 0⟩ 0 (1 / 10)
        (.error "connection refused") (.ok ()) (.ok ())).1 =
      ⟨TorrentListWalker.init, 0⟩ :=
  c5_failure_isolation _ 0 (1 / 10) _ _ _
    (Or.inl ⟨"connection refused", rfl⟩)

/-- C6 (divergence evidence): the claim says a failed round's next attempt
begins no sooner than the poll period after the previous attempt's start,
but the except clause's continue skips trio.sleep_until, so a round
starting at t = 0 that fails at t = 1/10 retries immediately at t = 1/10,
sooner than the period; a successful round with the same timing does wait
until the period has elapsed. -/
theorem c6_failed_round_retries_immediately :
    (update_data_round ⟨TorrentListWalker.init, 0⟩ 0 (1 / 10)
        (.error "connection refused") (.ok ()) (.ok ())).2 = 1 / 10 ∧
    (1 / 10 : ℚ) < 0 + pollPeriod ∧
    (update_data_round ⟨TorrentListWalker.init, 0⟩ 0 (1 / 10)
        (.ok []) (.ok ()) (.ok ())).2 = 0 + pollPeriod := by
  refine ⟨rfl, by norm_num [pollPeriod], ?_⟩
  show max (1 / 10 : ℚ) (0 + pollPeriod) = 0 + pollPeriod
  rw [max_eq_right]
  norm_num [pollPeriod]

/-- Counterexample for C7: with the queue ok-item, failing-item, ok-item,
the drain loop terminates with the escaped exception and the third item's
continuation is never invoked, so the failure is not isolated to the
failing item and the drain does not continue with the remaining items. -/
theorem c7_counterexample :
    (handleCallbacks 0
        [okItem (Value.int 1), failingItem, okItem (Value.int 3)]).2 =
      some "boom" ∧
    BEvent.callbackRun 2 ∉
      (handleCallbacks 0
        [okItem (Value.int 1), failingItem, okItem (Value.int 3)]).1 := by
  decide

/-- C7 amended: an exception from a queued item's producer (first
conjunct) or continuation (second conjunct) escapes the drain loop: the
items before it run normally, the loop terminates with that exception, and
the remaining queued items are never started. -/
theorem c7_drain_stops_on_exception :
    (∀ (n : Nat) (pre post : List WorkItem) (it : WorkItem) (e : String),
      (∀ i ∈ pre, itemOk i) → it.produce = .error e →
      handleCallbacks n (pre ++ it :: post) =
        (serialTrace n pre.length ++ [.producerStart (n + pre.length)],
         some e)) ∧
    (∀ (n : Nat) (pre post : List WorkItem) (it : WorkItem) (v : Value)
        (e : String),
      (∀ i ∈ pre, itemOk i) → it.produce = .ok v →
      it.callback v = .error e →
      handleCallbacks n (pre ++ it :: post) =
        (serialTrace n pre.length ++
          [.producerStart (n + pre.length), .producerDone (n + pre.length),
           .callbackRun (n + pre.length)],
         some e)) := by
  constructor
  · intro n pre post it e hpre hp
    exact handleCallbacks_drops_until_produce_error e it hp pre n post hpre
  · intro n pre post it v e hpre hp hc
    exact handleCallbacks_drops_until_callback_error e v it hp hc pre n
      post hpre

/-- Witness for C7 amended: one successful item followed by a failing
producer ends the drain after the failing item's producer start. -/
theorem c7_witness :
    handleCallbacks 0 [okItem (Value.int 1), failingItem] =
      (serialTrace 0 1 ++ [BEvent.producerStart (0 + 1)], some "boom") :=
  c7_drain_stops_on_exception.1 0 [okItem (Value.int 1)] [] failingItem
    "boom"
    (by
      intro i hi
      rw [List.mem_singleton] at hi
      subst hi
      exact ⟨Value.int 1, rfl, rfl⟩)
    rfl

/-- Counterexample for C8: a raw list with two records sharing identifier
1 is reconciled without any error; the resulting state holds exactly one
entry for identifier 1 whose record is the later one (name field y), i.e.
silent last-write-wins rather than a rejected round. -/
theorem c8_counterexample :
    (TorrentListWalker.init.set_entries [dupRecX, dupRecY]).order =
      [Value.int 1] ∧
    fieldOf (TorrentListWalker.init.set_entries [dupRecX, dupRecY]).entries
        "name" (Value.int 1) =
      Value.str "y" := by
  decide

/-- C8 amended: when a raw list contains several records with the same
identifier, set_entries silently keeps, for each identifier, the record of
its last occurrence in the list (the reverse-order first match), raising
no error. -/
theorem c8_duplicate_id_last_write_wins :
    ∀ (w : TorrentListWalker) (tl : List Rec) (k : Value),
      dictLookup (w.set_entries tl).entries k =
        tl.reverse.find? (fun r => decide (r "id" = k)) := by
  intro w tl k
  show dictLookup (buildEntries tl) k = _
  rw [buildEntries, dictLookup_foldl]
  show (tl.reverse.find? (fun r => decide (r "id" = k))).or none = _
  rw [Option.or_none]

/-- C9: the staleness tracker, ticking at a period shorter than the poll
period, reports the exact elapsed time since the last successful update;
the display is not yet degraded at 4.9 seconds and is degraded at 5.1
seconds against the 5-second threshold. -/
theorem c9_staleness_threshold :
    update_time_is_stale (track_elapsed (49 / 10) 0) = false ∧
    update_time_is_stale (track_elapsed (51 / 10) 0) = true ∧
    track_elapsed (49 / 10) 0 = 49 / 10 ∧
    tickPeriod < pollPeriod := by
  refine ⟨?_, ?_, ?_, ?_⟩
  · rw [update_time_is_stale, decide_eq_false_iff_not]
    rw [track_elapsed, staleThreshold]
    norm_num
  · rw [update_time_is_stale, decide_eq_true_eq]
    rw [track_elapsed, staleThreshold]
    norm_num
  · rw [track_elapsed]
    norm_num
  · rw [tickPeriod, pollPeriod]
    norm_num

end TC
